import Mathlib

/-!
Shallow embedding of the expensaur offline-first sync engine.

The embedded source is `src/app/utils/syncUtils.ts` (conflict detection,
per-kind conflict resolvers, pending-item filter, the merge planner
`mergeData`, `updateSyncStatus`) together with the Firebase sync service
(`syncExpenses`, `syncCategories`, `syncSettings`, `syncAllData`).

Modelling conventions:
- JS timestamps (`Date.now()` values) are `Nat`.  Every `Date.now()` call
  inside one sync cycle is modelled by a single injected clock value `now`.
- Optional numeric fields (`lastSyncedAt?: number`) are `Option Nat`; JS
  truthiness (`undefined` and `0` are falsy) is modelled by `jsTruthy`.
- Optional boolean fields (`isDeleted?: boolean`) are `Option Bool`; the JS
  truthiness test `if (x.isDeleted)` is `x.isDeleted == some true`.
- JS `Map` objects are association lists with the insertion-order and
  update-in-place semantics of `Map.set` / `Map.get` / `Map.delete`.
- Monetary amounts are JS floats in the source; no claim performs arithmetic
  on them, so they are carried as inert `Int` payload fields.
- Remote I/O (Firestore queries and batch commits) is modelled by a
  `RemoteEnv` record holding the query results and per-kind success flags;
  a failed batch commit is an `Except.error`.
-/

/-- JS truthiness of an optional numeric field: `undefined` and `0` are falsy,
every other number is truthy. -/
def jsTruthy : Option Nat → Bool
  | none => false
  | some n => n != 0

/-- The common sync envelope plus an entity-specific payload.  This models the
TypeScript structural constraint
`T extends { id: string; updatedAt: number; lastSyncedAt?: number; isDeleted?: boolean }`
used by `getPendingSyncItems` and `mergeData`.  For entities whose interface
does not declare `isDeleted` (categories), reading the absent optional
property yields `undefined`, i.e. the field is always `none`. -/
structure Item (α : Type) where
  id : String
  updatedAt : Nat
  lastSyncedAt : Option Nat
  isDeleted : Option Bool
  payload : α
  deriving DecidableEq

/-- The fields of `Expense` (src/app/models) outside the sync envelope. -/
structure ExpensePayload where
  userId : String
  amount : Int
  originalAmount : Option Int
  originalCurrency : Option String
  currency : String
  exchangeRate : Option Int
  description : String
  categoryId : String
  date : Nat
  createdAt : Nat
  deriving DecidableEq

abbrev Expense := Item ExpensePayload

/-- The fields of `Category` (src/app/models) outside the sync envelope. -/
structure CategoryPayload where
  name : String
  color : String
  icon : String
  createdAt : Nat
  isDefault : Option Bool
  deriving DecidableEq

abbrev Category := Item CategoryPayload

inductive Theme
  | light
  | dark
  | system
  deriving DecidableEq

/-- `UserSettings` (src/app/models): a singleton record, not keyed by `id`,
so it is not an `Item`. -/
structure UserSettings where
  userId : String
  defaultCurrency : String
  firstDayOfMonth : Nat
  firstDayOfWeek : Nat
  theme : Theme
  notificationsEnabled : Bool
  autoSync : Bool
  createdAt : Nat
  updatedAt : Nat
  lastSyncedAt : Option Nat
  deriving DecidableEq

/-- `SyncStatus` (src/app/models). -/
structure SyncStatus where
  lastSyncedAt : Nat
  isPending : Bool
  hasConflicts : Bool
  pendingSyncItems : Nat
  deriving DecidableEq

/-- `hasConflict` (syncUtils.ts:6-17).  Note the JS truthiness test
`if (!localItem.lastSyncedAt)`: both `undefined` and `0` take the early
`return false`. -/
def hasConflict (localItem remoteItem : Item α) : Bool :=
  if !jsTruthy localItem.lastSyncedAt then
    false
  else
    decide (localItem.lastSyncedAt.getD 0 < remoteItem.updatedAt) &&
      decide (localItem.lastSyncedAt.getD 0 < localItem.updatedAt)

/-- `resolveExpenseConflict` (syncUtils.ts:22-38), with the `Date.now()`
stamp injected as `now`. -/
def resolveExpenseConflict (now : Nat) (localExpense remoteExpense : Expense) : Expense :=
  if localExpense.updatedAt > remoteExpense.updatedAt then
    { localExpense with lastSyncedAt := some now }
  else
    { remoteExpense with lastSyncedAt := some now }

/-- `resolveCategoryConflict` (syncUtils.ts:43-59). -/
def resolveCategoryConflict (now : Nat) (localCategory remoteCategory : Category) : Category :=
  if localCategory.updatedAt > remoteCategory.updatedAt then
    { localCategory with lastSyncedAt := some now }
  else
    { remoteCategory with lastSyncedAt := some now }

/-- `resolveSettingsConflict` (syncUtils.ts:64-80). -/
def resolveSettingsConflict (now : Nat) (localSettings remoteSettings : UserSettings) : UserSettings :=
  if localSettings.updatedAt > remoteSettings.updatedAt then
    { localSettings with lastSyncedAt := some now }
  else
    { remoteSettings with lastSyncedAt := some now }

/-- The pending test `!item.lastSyncedAt || item.updatedAt > item.lastSyncedAt`,
repeated verbatim at syncUtils.ts:90, firebase service lines 298, 360, 477-483. -/
def itemNeedsSync (item : Item α) : Bool :=
  !jsTruthy item.lastSyncedAt || decide (item.lastSyncedAt.getD 0 < item.updatedAt)

/-- `getPendingSyncItems` (syncUtils.ts:85-93). -/
def getPendingSyncItems (items : List (Item α)) : List (Item α) :=
  items.filter fun item => itemNeedsSync item

/-- A JS `Map` keyed by strings: an association list in insertion order. -/
abbrev JSMap (α : Type) : Type := List (String × α)

/-- `Map.prototype.get`: the value of the unique entry with key `k`. -/
def JSMap.get (m : JSMap α) (k : String) : Option α :=
  (m.find? fun p => p.1 == k).map Prod.snd

/-- `Map.prototype.set`: update in place if the key exists (keeping its
insertion position), otherwise append. -/
def JSMap.set (m : JSMap α) (k : String) (v : α) : JSMap α :=
  if m.any fun p => p.1 == k then
    m.map fun p => if p.1 == k then (k, v) else p
  else
    m ++ [(k, v)]

/-- `Map.prototype.delete`. -/
def JSMap.del (m : JSMap α) (k : String) : JSMap α :=
  m.filter fun p => p.1 != k

/-- The body of `mergeData`'s forEach for a local item whose id is present in
`remoteItemsMap` (the else-branch at syncUtils.ts:118-138): conflict → resolve;
else remote newer → adopt remote stamped; else local newer or never synced →
keep local stamped; else unchanged local. -/
def mergeBothPresent (resolveConflict : Item α → Item α → Item α) (now : Nat)
    (localItem remoteItem : Item α) : Item α :=
  if hasConflict localItem remoteItem then
    resolveConflict localItem remoteItem
  else if jsTruthy localItem.lastSyncedAt &&
      decide (localItem.lastSyncedAt.getD 0 < remoteItem.updatedAt) then
    { remoteItem with lastSyncedAt := some now }
  else if !jsTruthy localItem.lastSyncedAt ||
      decide (localItem.lastSyncedAt.getD 0 < localItem.updatedAt) then
    { localItem with lastSyncedAt := some now }
  else
    localItem

/-- The forEach over `localItems` (syncUtils.ts:112-143), threading
`remoteItemsMap` (consumed ids are deleted).  Returns the merged prefix and
the final state of the remote map. -/
def mergeLoop (resolveConflict : Item α → Item α → Item α) (now : Nat) :
    List (Item α) → JSMap (Item α) → List (Item α) × JSMap (Item α)
  | [], remoteItemsMap => ([], remoteItemsMap)
  | localItem :: rest, remoteItemsMap =>
    match JSMap.get remoteItemsMap localItem.id with
    | none =>
      let r := mergeLoop resolveConflict now rest remoteItemsMap
      (localItem :: r.1, r.2)
    | some remoteItem =>
      let r := mergeLoop resolveConflict now rest (JSMap.del remoteItemsMap localItem.id)
      (mergeBothPresent resolveConflict now localItem remoteItem :: r.1, r.2)

/-- `mergeData` (syncUtils.ts:98-154).  The `localItemsMap` built at line 108
is never read by the source and is omitted.  Remaining remote items are
adopted with `lastSyncedAt` stamped to now (lines 146-151). -/
def mergeData (localItems remoteItems : List (Item α))
    (resolveConflict : Item α → Item α → Item α) (now : Nat) : List (Item α) :=
  let remoteItemsMap : JSMap (Item α) :=
    remoteItems.foldl (fun m item => JSMap.set m item.id item) []
  let r := mergeLoop resolveConflict now localItems remoteItemsMap
  r.1 ++ r.2.map fun p => { p.2 with lastSyncedAt := some now }

/-- The settings pending test `!settings.lastSyncedAt || settings.updatedAt >
settings.lastSyncedAt` (syncUtils.ts:167, firebase service lines 423, 435, 479). -/
def settingsNeedsSync (settings : UserSettings) : Bool :=
  !jsTruthy settings.lastSyncedAt ||
    decide (settings.lastSyncedAt.getD 0 < settings.updatedAt)

/-- `updateSyncStatus` (syncUtils.ts:159-177). -/
def updateSyncStatus (now : Nat) (currentStatus : SyncStatus)
    (expenses : List Expense) (categories : List Category)
    (settings : Option UserSettings) : SyncStatus :=
  let pendingExpenses := getPendingSyncItems expenses
  let pendingCategories := getPendingSyncItems categories
  let pendingSettings : Nat :=
    match settings with
    | some s => if settingsNeedsSync s then 1 else 0
    | none => 0
  let pendingSyncItems := pendingExpenses.length + pendingCategories.length + pendingSettings
  { lastSyncedAt := if pendingSyncItems > 0 then currentStatus.lastSyncedAt else now
    isPending := decide (pendingSyncItems > 0)
    hasConflicts := currentStatus.hasConflicts
    pendingSyncItems := pendingSyncItems }

/-- One operation inside the expense batch write (firebase service lines
300-314): `batch.set` with the stamped document, or `batch.delete`. -/
inductive RemoteOp
  | set (id : String) (data : Expense)
  | delete (id : String)
  deriving DecidableEq

/-- Per-kind sync failure, raised when a remote batch commit rejects. -/
inductive SyncError
  | expensePushFailed
  | categoryPushFailed
  | settingsPushFailed
  deriving DecidableEq

/-- The remote store as seen by one sync cycle: the Firestore query results
for the three kinds plus a success flag per kind for the batch commit /
setDoc calls. -/
structure RemoteEnv where
  remoteExpenses : List Expense
  remoteCategories : List Category
  remoteSettings : Option UserSettings
  expensePushOk : Bool
  categoryPushOk : Bool
  settingsPushOk : Bool

/-- The batch built by the loop at firebase service lines 297-314: for each
pending expense, a delete op when `expense.isDeleted` is truthy, otherwise a
set op carrying `expenseWithSync = { ...expense, lastSyncedAt: Date.now() }`. -/
def expenseBatch (now : Nat) (mergedExpenses : List Expense) : List RemoteOp :=
  (mergedExpenses.filter fun exp => itemNeedsSync exp).map fun expense =>
    if expense.isDeleted == some true then
      RemoteOp.delete expense.id
    else
      RemoteOp.set expense.id { expense with lastSyncedAt := some now }

/-- `syncExpenses` (firebase service lines 268-327).  The remote query is the
`env` field; the batch commit (issued only when `pendingExpenses.length > 0`)
fails when `env.expensePushOk` is false.  On success the function returns
`mergedExpenses` - the merge output, not the stamped `expenseWithSync`
copies that went into the batch. -/
def syncExpenses (env : RemoteEnv) (now : Nat) (localExpenses : List Expense) :
    Except SyncError (List Expense) :=
  let mergedExpenses :=
    mergeData localExpenses env.remoteExpenses (resolveExpenseConflict now) now
  let pendingExpenses := mergedExpenses.filter fun exp => itemNeedsSync exp
  if pendingExpenses.length > 0 && !env.expensePushOk then
    Except.error SyncError.expensePushFailed
  else
    Except.ok mergedExpenses

/-- `syncCategories` (firebase service lines 330-383): same shape as
`syncExpenses` but every pending category is a set op (no tombstones). -/
def syncCategories (env : RemoteEnv) (now : Nat) (localCategories : List Category) :
    Except SyncError (List Category) :=
  let mergedCategories :=
    mergeData localCategories env.remoteCategories (resolveCategoryConflict now) now
  let pendingCategories := mergedCategories.filter fun cat => itemNeedsSync cat
  if pendingCategories.length > 0 && !env.categoryPushOk then
    Except.error SyncError.categoryPushFailed
  else
    Except.ok mergedCategories

/-- `syncSettings` (firebase service lines 386-450): singleton path.  If no
remote settings exist the local settings are pushed unconditionally; else the
merge branch structure of lines 414-432, then a push when the merged record
is still pending (lines 435-443). -/
def syncSettings (env : RemoteEnv) (now : Nat) (localSettings : UserSettings) :
    Except SyncError UserSettings :=
  match env.remoteSettings with
  | none =>
    if !env.settingsPushOk then
      Except.error SyncError.settingsPushFailed
    else
      Except.ok { localSettings with lastSyncedAt := some now }
  | some remoteSettings =>
    let mergedSettings : UserSettings :=
      if jsTruthy localSettings.lastSyncedAt &&
          decide (localSettings.lastSyncedAt.getD 0 < remoteSettings.updatedAt) &&
          decide (localSettings.lastSyncedAt.getD 0 < localSettings.updatedAt) then
        resolveSettingsConflict now localSettings remoteSettings
      else if jsTruthy localSettings.lastSyncedAt &&
          decide (localSettings.lastSyncedAt.getD 0 < remoteSettings.updatedAt) then
        { remoteSettings with lastSyncedAt := some now }
      else if !jsTruthy localSettings.lastSyncedAt ||
          decide (localSettings.lastSyncedAt.getD 0 < localSettings.updatedAt) then
        { localSettings with lastSyncedAt := some now }
      else
        localSettings
    if settingsNeedsSync mergedSettings then
      if !env.settingsPushOk then
        Except.error SyncError.settingsPushFailed
      else
        Except.ok { mergedSettings with lastSyncedAt := some now }
    else
      Except.ok mergedSettings

/-- The record returned by `syncAllData`. -/
structure SyncAllResult where
  expenses : List Expense
  categories : List Category
  settings : UserSettings
  syncStatus : SyncStatus
  deriving DecidableEq

/-- `syncAllData` (firebase service lines 453-503).  `Promise.all` rejects
as soon as any of the three per-kind promises rejects; this is modelled as
the first error in argument order.  On success the status is built inline
(lines 486-491) with `lastSyncedAt: Date.now()` and `hasConflicts: false`. -/
def syncAllData (env : RemoteEnv) (now : Nat)
    (localExpenses : List Expense) (localCategories : List Category)
    (localSettings : UserSettings) : Except SyncError SyncAllResult :=
  match syncExpenses env now localExpenses,
        syncCategories env now localCategories,
        syncSettings env now localSettings with
  | Except.error e, _, _ => Except.error e
  | _, Except.error e, _ => Except.error e
  | _, _, Except.error e => Except.error e
  | Except.ok syncedExpenses, Except.ok syncedCategories, Except.ok syncedSettings =>
    let hasPendingExpenses := syncedExpenses.any fun exp => itemNeedsSync exp
    let hasPendingCategories := syncedCategories.any fun cat => itemNeedsSync cat
    let hasPendingSettings := settingsNeedsSync syncedSettings
    let pendingSyncItems :=
      (syncedExpenses.filter fun exp => itemNeedsSync exp).length +
      (syncedCategories.filter fun cat => itemNeedsSync cat).length +
      (if hasPendingSettings then 1 else 0)
    Except.ok
      { expenses := syncedExpenses
        categories := syncedCategories
        settings := syncedSettings
        syncStatus :=
          { lastSyncedAt := now
            isPending := hasPendingExpenses || hasPendingCategories || hasPendingSettings
            hasConflicts := false
            pendingSyncItems := pendingSyncItems } }

/-! Concrete sample data used by closed evaluations and witnesses. -/

/-- A fixed expense payload; the payload fields are inert for the sync engine. -/
def p0 : ExpensePayload :=
  { userId := "u", amount := 20, originalAmount := none, originalCurrency := none,
    currency := "USD", exchangeRate := none, description := "t", categoryId := "c",
    date := 1, createdAt := 1 }

/-- A local-only expense that has never been synced (pending). -/
def e0 : Expense :=
  { id := "e1", updatedAt := 100, lastSyncedAt := none, isDeleted := none, payload := p0 }

/-- Settings already synced past their last update. -/
def s0 : UserSettings :=
  { userId := "u", defaultCurrency := "USD", firstDayOfMonth := 1, firstDayOfWeek := 0,
    theme := Theme.light, notificationsEnabled := true, autoSync := true,
    createdAt := 1, updatedAt := 100, lastSyncedAt := some 150 }

/-- Empty remote store, all pushes succeed. -/
def envOk : RemoteEnv :=
  { remoteExpenses := [], remoteCategories := [], remoteSettings := none,
    expensePushOk := true, categoryPushOk := true, settingsPushOk := true }

/-- Empty remote store but the expense batch commit fails. -/
def envFailExp : RemoteEnv := { envOk with expensePushOk := false }

/-- Local record changed since its own sync point (updatedAt 100 > lastSyncedAt 50). -/
def lLoc : Expense :=
  { id := "e1", updatedAt := 100, lastSyncedAt := some 50, isDeleted := none, payload := p0 }

/-- Same-id remote counterpart unchanged since that sync point (updatedAt 40 <= 50). -/
def rRem : Expense :=
  { id := "e1", updatedAt := 40, lastSyncedAt := some 40, isDeleted := none, payload := p0 }

/-- Remote store holding only `rRem`; all pushes succeed. -/
def envC2 : RemoteEnv := { envOk with remoteExpenses := [rRem] }

/-- A locally tombstoned, never-synced expense. -/
def tomb : Expense :=
  { id := "e9", updatedAt := 100, lastSyncedAt := none, isDeleted := some true, payload := p0 }

/-- A local record whose `lastSyncedAt` is present but zero (a falsy number in JS). -/
def lx : Expense :=
  { id := "e1", updatedAt := 1, lastSyncedAt := some 0, isDeleted := none, payload := p0 }

/-- A remote record updated after timestamp zero. -/
def rx : Expense :=
  { id := "e1", updatedAt := 1, lastSyncedAt := none, isDeleted := none, payload := p0 }

/-- Both sides changed after the (nonzero) shared sync point 5. -/
def lC6 : Expense :=
  { id := "e1", updatedAt := 10, lastSyncedAt := some 5, isDeleted := none, payload := p0 }

/-- Remote counterpart of `lC6`, also changed after the sync point. -/
def rC6 : Expense :=
  { id := "e1", updatedAt := 10, lastSyncedAt := none, isDeleted := none, payload := p0 }

/-- A previous sync status with a recognizable `lastSyncedAt`. -/
def st0 : SyncStatus :=
  { lastSyncedAt := 42, isPending := false, hasConflicts := false, pendingSyncItems := 0 }

/-- The concrete result of `syncAllData envOk 200 [e0] [] s0`. -/
def r0 : SyncAllResult :=
  { expenses := [e0]
    categories := []
    settings := { s0 with lastSyncedAt := some 200 }
    syncStatus :=
      { lastSyncedAt := 200, isPending := true, hasConflicts := false, pendingSyncItems := 1 } }

/-! Helper lemmas. -/

/-- Each resolver returns one of its two inputs with `lastSyncedAt` stamped. -/
theorem resolveExpenseConflict_stamp (now : Nat) (l r : Expense) :
    resolveExpenseConflict now l r = { l with lastSyncedAt := some now } ∨
      resolveExpenseConflict now l r = { r with lastSyncedAt := some now } := by
  unfold resolveExpenseConflict
  split
  · exact Or.inl rfl
  · exact Or.inr rfl

theorem resolveCategoryConflict_stamp (now : Nat) (l r : Category) :
    resolveCategoryConflict now l r = { l with lastSyncedAt := some now } ∨
      resolveCategoryConflict now l r = { r with lastSyncedAt := some now } := by
  unfold resolveCategoryConflict
  split
  · exact Or.inl rfl
  · exact Or.inr rfl

theorem resolveSettingsConflict_stamp (now : Nat) (l r : UserSettings) :
    resolveSettingsConflict now l r = { l with lastSyncedAt := some now } ∨
      resolveSettingsConflict now l r = { r with lastSyncedAt := some now } := by
  unfold resolveSettingsConflict
  split
  · exact Or.inl rfl
  · exact Or.inr rfl

/-- If two resolvers agree on every conflicting pair, the merge outcome for a
matched pair is the same: the resolver is only consulted when `hasConflict`. -/
theorem mergeBothPresent_congr {α : Type} {f g : Item α → Item α → Item α} (now : Nat)
    (l r : Item α) (hfg : ∀ a b, hasConflict a b = true → f a b = g a b) :
    mergeBothPresent f now l r = mergeBothPresent g now l r := by
  unfold mergeBothPresent
  by_cases hc : hasConflict l r = true
  · simp [hc, hfg l r hc]
  · simp [hc]

theorem mergeLoop_congr {α : Type} {f g : Item α → Item α → Item α} (now : Nat)
    (hfg : ∀ a b, hasConflict a b = true → f a b = g a b) :
    ∀ (locals : List (Item α)) (m : JSMap (Item α)),
      mergeLoop f now locals m = mergeLoop g now locals m := by
  intro locals
  induction locals with
  | nil => intro m; rfl
  | cons l rest ih =>
    intro m
    cases hget : JSMap.get m l.id with
    | none => simp only [mergeLoop, hget, ih]
    | some r => simp only [mergeLoop, hget, ih, mergeBothPresent_congr now l r hfg]

theorem mergeData_congr {α : Type} {f g : Item α → Item α → Item α} (now : Nat)
    (L R : List (Item α)) (hfg : ∀ a b, hasConflict a b = true → f a b = g a b) :
    mergeData L R f now = mergeData L R g now := by
  simp only [mergeData, mergeLoop_congr now hfg]

/-- Conflict detection characterized: it fires exactly when `lastSyncedAt` is a
nonzero timestamp that both sides have passed. -/
theorem hasConflict_iff {α : Type} (l r : Item α) :
    hasConflict l r = true ↔
      ∃ t, l.lastSyncedAt = some t ∧ t ≠ 0 ∧ t < r.updatedAt ∧ t < l.updatedAt := by
  cases hls : l.lastSyncedAt with
  | none =>
    simp [hasConflict, jsTruthy, hls]
  | some t =>
    by_cases ht : t = 0
    · subst ht
      simp [hasConflict, jsTruthy, hls]
    · simp [hasConflict, jsTruthy, hls, ht]

/-! Claim theorems. -/

/-- C1 (code bug): with an empty remote store and a never-synced local expense,
the push succeeds and the batch contains the stamped copy of the item, yet
`syncExpenses` returns the merge output in which the pushed item still has
`lastSyncedAt` unset (so `lastSyncedAt >= updatedAt` fails and the item is
still pending) - the stamp is applied only to the copy written remotely, not
to the snapshot returned to the caller. -/
theorem c1_returned_snapshot_not_stamped_after_push :
    syncExpenses envOk 200 [e0] = Except.ok [e0] ∧
    e0.lastSyncedAt = none ∧
    itemNeedsSync e0 = true ∧
    expenseBatch 200 (mergeData [e0] [] (resolveExpenseConflict 200) 200) =
      [RemoteOp.set "e1" { e0 with lastSyncedAt := some 200 }] := by
  exact ⟨rfl, rfl, rfl, rfl⟩

/-- C2 (code bug): a local record newer than its own sync point whose remote
counterpart did not change is kept by the merge but with `lastSyncedAt`
stamped to the merge clock, so the pending-push filter excludes it and the
batch submitted to the remote store is empty: the local edit is never
pushed. -/
theorem c2_local_newer_stamped_and_excluded_from_push :
    mergeData [lLoc] [rRem] (resolveExpenseConflict 200) 200 =
      [{ lLoc with lastSyncedAt := some 200 }] ∧
    lLoc.lastSyncedAt = some 50 ∧ 50 < lLoc.updatedAt ∧ rRem.updatedAt ≤ 50 ∧
    (mergeData [lLoc] [rRem] (resolveExpenseConflict 200) 200).filter
      (fun exp => itemNeedsSync exp) = [] ∧
    expenseBatch 200 (mergeData [lLoc] [rRem] (resolveExpenseConflict 200) 200) = [] := by
  refine ⟨rfl, rfl, ?_, ?_, rfl, rfl⟩ <;> decide

/-- C3 counterexample: when the expense batch commit fails, `syncAllData`
returns an error - no merged results for the unaffected kinds and no
`isPending = true` status - even though the category cycle on its own would
have succeeded. -/
theorem c3_failure_aborts_whole_call_cex :
    syncAllData envFailExp 200 [e0] [] s0 = Except.error SyncError.expensePushFailed ∧
    syncCategories envFailExp 200 [] = Except.ok [] := by
  exact ⟨rfl, rfl⟩

/-- C3 amended: failure of any kind's remote write rejects the whole
`syncAllData` call (mirroring `Promise.all`): the first failing kind's error
becomes the result and no merged data is returned for any kind. -/
theorem c3_one_kind_failure_rejects_whole_call :
    ∀ (env : RemoteEnv) (now : Nat) (le : List Expense) (lc : List Category)
      (ls : UserSettings),
      (∀ e, syncExpenses env now le = Except.error e →
        syncAllData env now le lc ls = Except.error e) ∧
      (∀ le2 e, syncExpenses env now le = Except.ok le2 →
        syncCategories env now lc = Except.error e →
        syncAllData env now le lc ls = Except.error e) ∧
      (∀ le2 lc2 e, syncExpenses env now le = Except.ok le2 →
        syncCategories env now lc = Except.ok lc2 →
        syncSettings env now ls = Except.error e →
        syncAllData env now le lc ls = Except.error e) := by
  intro env now le lc ls
  refine ⟨?_, ?_, ?_⟩
  · intro e h
    cases h2 : syncCategories env now lc <;> cases h3 : syncSettings env now ls <;>
      simp [syncAllData, h, h2, h3]
  · intro le2 e h1 h2
    cases h3 : syncSettings env now ls <;> simp [syncAllData, h1, h2, h3]
  · intro le2 lc2 e h1 h2 h3
    simp [syncAllData, h1, h2, h3]

/-- Witness for C3: applies the theorem at the concrete failing environment. -/
theorem c3_one_kind_failure_rejects_whole_call_witness :
    syncAllData envFailExp 200 [e0] [] s0 = Except.error SyncError.expensePushFailed :=
  (c3_one_kind_failure_rejects_whole_call envFailExp 200 [e0] [] s0).1
    SyncError.expensePushFailed rfl

/-- C4 counterexample: after a successful cycle that leaves a pending item
(the pushed-but-unstamped `e0`), the returned status still reports
`lastSyncedAt = 200`, the time of this cycle, instead of retaining a previous
value. -/
theorem c4_lastSyncedAt_advanced_despite_pending_cex :
    (syncAllData envOk 200 [e0] [] s0).map
      (fun r => (r.syncStatus.isPending, r.syncStatus.lastSyncedAt)) =
      Except.ok (true, 200) := by
  exact rfl

/-- C4 amended: the `SyncStatus` returned by `syncAllData` always carries
`lastSyncedAt = now` (the time of this cycle), pending items or not; the
retain-previous-value behaviour exists only in `updateSyncStatus`, which
`syncAllData` never invokes. -/
theorem c4_status_always_stamps_cycle_time :
    (∀ (env : RemoteEnv) (now : Nat) (le : List Expense) (lc : List Category)
      (ls : UserSettings) (r : SyncAllResult),
      syncAllData env now le lc ls = Except.ok r → r.syncStatus.lastSyncedAt = now) ∧
    (∀ (now : Nat) (cur : SyncStatus) (es : List Expense) (cs : List Category)
      (st : Option UserSettings),
      (updateSyncStatus now cur es cs st).isPending = true →
      (updateSyncStatus now cur es cs st).lastSyncedAt = cur.lastSyncedAt) := by
  constructor
  · intro env now le lc ls r h
    cases h1 : syncExpenses env now le <;> cases h2 : syncCategories env now lc <;>
      cases h3 : syncSettings env now ls <;> simp [syncAllData, h1, h2, h3] at h
    rw [← h]
  · intro now cur es cs st h
    unfold updateSyncStatus at h ⊢
    simp only [gt_iff_lt, decide_eq_true_eq] at h
    simp [h]

/-- Witness for C4: the amended facts at concrete inputs. -/
theorem c4_status_always_stamps_cycle_time_witness :
    r0.syncStatus.lastSyncedAt = 200 ∧
    (updateSyncStatus 5 st0 [e0] [] none).lastSyncedAt = 42 :=
  ⟨c4_status_always_stamps_cycle_time.1 envOk 200 [e0] [] s0 r0 rfl,
   c4_status_always_stamps_cycle_time.2 5 st0 [e0] [] none rfl⟩

/-- C6 counterexample: a local record whose `lastSyncedAt` is present but
equal to `0` (a set, falsy JS number) with both sides updated after it: all
three facts of the claim hold, yet `hasConflict` reports no conflict because
the JS truthiness test treats `0` as unset. -/
theorem c6_zero_sync_point_reports_no_conflict_cex :
    hasConflict lx rx = false ∧ lx.lastSyncedAt = some 0 ∧
    0 < rx.updatedAt ∧ 0 < lx.updatedAt := by
  refine ⟨rfl, rfl, ?_, ?_⟩ <;> decide

/-- C6 amended: `hasConflict` returns true iff the local record's
`lastSyncedAt` is set to a nonzero timestamp and both the remote and the
local `updatedAt` strictly exceed it; and the merge consults the resolver
only on pairs for which `hasConflict` holds (two resolvers agreeing on all
conflicting pairs yield identical merges). -/
theorem c6_detection_iff_nonzero_sync_point :
    (∀ (α : Type) (l r : Item α), hasConflict l r = true ↔
      ∃ t, l.lastSyncedAt = some t ∧ t ≠ 0 ∧ t < r.updatedAt ∧ t < l.updatedAt) ∧
    (∀ (α : Type) (L R : List (Item α)) (f g : Item α → Item α → Item α) (now : Nat),
      (∀ a b, hasConflict a b = true → f a b = g a b) →
      mergeData L R f now = mergeData L R g now) :=
  ⟨fun _ l r => hasConflict_iff l r,
   fun _ L R _ _ now hfg => mergeData_congr now L R hfg⟩

/-- Witness for C6: a genuine conflict at nonzero sync point 5, and the
resolver-congruence instance at a concrete merge. -/
theorem c6_detection_iff_nonzero_sync_point_witness :
    hasConflict lC6 rC6 = true ∧
    mergeData [lC6] [rC6] (resolveExpenseConflict 7) 7 =
      mergeData [lC6] [rC6] (resolveExpenseConflict 7) 7 :=
  ⟨(c6_detection_iff_nonzero_sync_point.1 ExpensePayload lC6 rC6).mpr
      ⟨5, rfl, by decide, by decide, by decide⟩,
   c6_detection_iff_nonzero_sync_point.2 ExpensePayload [lC6] [rC6]
      (resolveExpenseConflict 7) (resolveExpenseConflict 7) 7 (fun _ _ _ => rfl)⟩

/-- C7: each resolver implements last-writer-wins by `updatedAt` - the local
version wins exactly when `local.updatedAt > remote.updatedAt`, remote wins
otherwise (ties to remote), the winner is stamped with the resolution time,
and the selected winner does not depend on the stamping clock (resolution is
deterministic). -/
theorem c7_resolution_last_writer_wins :
    ∀ (now n1 n2 : Nat),
      (∀ l r : Expense, resolveExpenseConflict now l r =
        if l.updatedAt > r.updatedAt then { l with lastSyncedAt := some now }
        else { r with lastSyncedAt := some now }) ∧
      (∀ l r : Category, resolveCategoryConflict now l r =
        if l.updatedAt > r.updatedAt then { l with lastSyncedAt := some now }
        else { r with lastSyncedAt := some now }) ∧
      (∀ l r : UserSettings, resolveSettingsConflict now l r =
        if l.updatedAt > r.updatedAt then { l with lastSyncedAt := some now }
        else { r with lastSyncedAt := some now }) ∧
      (∀ l r : Expense,
        { resolveExpenseConflict n1 l r with lastSyncedAt := none } =
          { resolveExpenseConflict n2 l r with lastSyncedAt := none }) ∧
      (∀ l r : Category,
        { resolveCategoryConflict n1 l r with lastSyncedAt := none } =
          { resolveCategoryConflict n2 l r with lastSyncedAt := none }) ∧
      (∀ l r : UserSettings,
        { resolveSettingsConflict n1 l r with lastSyncedAt := none } =
          { resolveSettingsConflict n2 l r with lastSyncedAt := none }) := by
  intro now n1 n2
  refine ⟨fun l r => rfl, fun l r => rfl, fun l r => rfl, ?_, ?_, ?_⟩
  · intro l r
    unfold resolveExpenseConflict
    by_cases h : l.updatedAt > r.updatedAt <;> simp [h]
  · intro l r
    unfold resolveCategoryConflict
    by_cases h : l.updatedAt > r.updatedAt <;> simp [h]
  · intro l r
    unfold resolveSettingsConflict
    by_cases h : l.updatedAt > r.updatedAt <;> simp [h]

/-- C10: each resolver returns one of its two inputs with only `lastSyncedAt`
modified - no field of the loser is mixed in and no other field of the winner
changes. -/
theorem c10_resolver_frame :
    ∀ now : Nat,
      (∀ l r : Expense,
        resolveExpenseConflict now l r = { l with lastSyncedAt := some now } ∨
          resolveExpenseConflict now l r = { r with lastSyncedAt := some now }) ∧
      (∀ l r : Category,
        resolveCategoryConflict now l r = { l with lastSyncedAt := some now } ∨
          resolveCategoryConflict now l r = { r with lastSyncedAt := some now }) ∧
      (∀ l r : UserSettings,
        resolveSettingsConflict now l r = { l with lastSyncedAt := some now } ∨
          resolveSettingsConflict now l r = { r with lastSyncedAt := some now }) :=
  fun now =>
    ⟨resolveExpenseConflict_stamp now, resolveCategoryConflict_stamp now,
     resolveSettingsConflict_stamp now⟩

/-! Lemmas about the JS map model and the merge loop. -/

theorem JSMap.get_mem {α : Type} {m : JSMap α} {k : String} {v : α}
    (h : JSMap.get m k = some v) : (k, v) ∈ m := by
  unfold JSMap.get at h
  cases hf : m.find? (fun p => p.1 == k) with
  | none => rw [hf] at h; cases h
  | some p =>
    rw [hf] at h
    have hp := List.find?_some hf
    have hm : p ∈ m := List.mem_of_find?_eq_some hf
    have h2 : p.2 = v := by simpa using h
    have h1 : p.1 = k := by simpa using hp
    cases p
    simp_all

theorem JSMap.del_sublist {α : Type} (m : JSMap α) (k : String) :
    List.Sublist (JSMap.del m k) m :=
  List.filter_sublist m

/-- Replacing `lastSyncedAt` with its current value is the identity. -/
theorem setLastSynced_self {α : Type} {m : Item α} {now : Nat}
    (hm : m.lastSyncedAt = some now) :
    ({ m with lastSyncedAt := some now } : Item α) = m := by
  cases m
  simp_all

/-- A matched item whose `lastSyncedAt` already equals the merge clock and
whose remote counterpart is not from the future is left untouched by the
matched-pair merge. -/
theorem mergeBothPresent_stamped {α : Type} (f : Item α → Item α → Item α) (now : Nat)
    (m r : Item α) (hm : m.lastSyncedAt = some now) (hr : r.updatedAt ≤ now) :
    mergeBothPresent f now m r = m := by
  have hc : hasConflict m r = false := by
    unfold hasConflict
    rw [hm]
    simp [jsTruthy]
    omega
  have hcond2 : (jsTruthy m.lastSyncedAt &&
      decide (m.lastSyncedAt.getD 0 < r.updatedAt)) = false := by
    rw [hm]
    simp
    omega
  unfold mergeBothPresent
  rw [hc, hcond2]
  simp only [Bool.false_eq_true, if_false]
  split
  · exact setLastSynced_self hm
  · rfl

/-- The matched-pair merge preserves the local item's id when the remote
counterpart carries the same id (the map invariant guarantees this). -/
theorem mergeBothPresent_id {α : Type} {f : Item α → Item α → Item α} {now : Nat}
    {l r : Item α}
    (hf : ∀ a b : Item α, f a b = { a with lastSyncedAt := some now } ∨
      f a b = { b with lastSyncedAt := some now })
    (hid : r.id = l.id) :
    (mergeBothPresent f now l r).id = l.id := by
  unfold mergeBothPresent
  split
  · rcases hf l r with h | h <;> simp [h, hid]
  · split
    · simp [hid]
    · split
      · rfl
      · rfl

/-- Re-merging the outcome of a matched-pair merge against the same remote
item is a no-op, provided the resolver stamps `lastSyncedAt` to the merge
clock and the remote item is not from the future. -/
theorem mergeBothPresent_idem {α : Type} {f : Item α → Item α → Item α} {now : Nat}
    {l r : Item α}
    (hf : ∀ a b : Item α, f a b = { a with lastSyncedAt := some now } ∨
      f a b = { b with lastSyncedAt := some now })
    (hr : r.updatedAt ≤ now) :
    mergeBothPresent f now (mergeBothPresent f now l r) r = mergeBothPresent f now l r := by
  by_cases hc : hasConflict l r = true
  · have hm : mergeBothPresent f now l r = f l r := by
      unfold mergeBothPresent
      simp [hc]
    rcases hf l r with h | h <;>
      · rw [hm, h]
        exact mergeBothPresent_stamped f now _ r rfl hr
  · by_cases h2 : (jsTruthy l.lastSyncedAt &&
        decide (l.lastSyncedAt.getD 0 < r.updatedAt)) = true
    · have hm : mergeBothPresent f now l r = { r with lastSyncedAt := some now } := by
        unfold mergeBothPresent
        simp [hc, h2]
      rw [hm]
      exact mergeBothPresent_stamped f now _ r rfl hr
    · by_cases h3 : (!jsTruthy l.lastSyncedAt ||
          decide (l.lastSyncedAt.getD 0 < l.updatedAt)) = true
      · have hm : mergeBothPresent f now l r = { l with lastSyncedAt := some now } := by
          unfold mergeBothPresent
          simp [hc, h2, h3]
        rw [hm]
        exact mergeBothPresent_stamped f now _ r rfl hr
      · have hm : mergeBothPresent f now l r = l := by
          unfold mergeBothPresent
          simp [hc, h2, h3]
        rw [hm]
        exact hm

/-- The leftover remote map after the merge loop is a sublist of the input map. -/
theorem mergeLoop_snd_sublist {α : Type} (f : Item α → Item α → Item α) (now : Nat) :
    ∀ (locals : List (Item α)) (m : JSMap (Item α)),
      List.Sublist (mergeLoop f now locals m).2 m := by
  intro locals
  induction locals with
  | nil =>
    intro m
    exact List.Sublist.refl m
  | cons l rest ih =>
    intro m
    cases hget : JSMap.get m l.id with
    | none =>
      simpa [mergeLoop, hget] using ih m
    | some r =>
      have h1 := ih (JSMap.del m l.id)
      have h2 := JSMap.del_sublist m l.id
      simpa [mergeLoop, hget] using h1.trans h2

/-- Re-running the merge loop on its own output against the same remote map
reproduces that output (and the same leftover map). -/
theorem mergeLoop_self {α : Type} {f : Item α → Item α → Item α} {now : Nat}
    (hf : ∀ a b : Item α, f a b = { a with lastSyncedAt := some now } ∨
      f a b = { b with lastSyncedAt := some now }) :
    ∀ (locals : List (Item α)) (m : JSMap (Item α)),
      (∀ p ∈ m, (p.2 : Item α).id = p.1) →
      (∀ p ∈ m, (p.2 : Item α).updatedAt ≤ now) →
      mergeLoop f now (mergeLoop f now locals m).1 m = mergeLoop f now locals m := by
  intro locals
  induction locals with
  | nil =>
    intro m _ _
    rfl
  | cons l rest ih =>
    intro m hids hup
    cases hget : JSMap.get m l.id with
    | none =>
      have hrec := ih m hids hup
      simp only [mergeLoop, hget]
      rw [hrec]
    | some r =>
      have hmem : (l.id, r) ∈ m := JSMap.get_mem hget
      have hrid : r.id = l.id := hids (l.id, r) hmem
      have hrup : r.updatedAt ≤ now := hup (l.id, r) hmem
      have hids2 : ∀ p ∈ JSMap.del m l.id, (p.2 : Item α).id = p.1 :=
        fun p hp => hids p (List.mem_of_mem_filter hp)
      have hup2 : ∀ p ∈ JSMap.del m l.id, (p.2 : Item α).updatedAt ≤ now :=
        fun p hp => hup p (List.mem_of_mem_filter hp)
      have hrec := ih (JSMap.del m l.id) hids2 hup2
      have hbid : (mergeBothPresent f now l r).id = l.id := mergeBothPresent_id hf hrid
      have hbget : JSMap.get m (mergeBothPresent f now l r).id = some r := by
        rw [hbid]
        exact hget
      have hbidem : mergeBothPresent f now (mergeBothPresent f now l r) r =
          mergeBothPresent f now l r := mergeBothPresent_idem hf hrup
      simp only [mergeLoop, hget]
      simp only [mergeLoop, hbget, hbid]
      simp only [hget]
      rw [hbidem, hrec]

/-- Feeding the stamped leftover remote items back into the merge loop against
the map they came from consumes the whole map and reproduces them unchanged. -/
theorem mergeLoop_stamped {α : Type} (f : Item α → Item α → Item α) (now : Nat) :
    ∀ (m : JSMap (Item α)),
      (∀ p ∈ m, (p.2 : Item α).id = p.1) →
      (∀ p ∈ m, (p.2 : Item α).updatedAt ≤ now) →
      (m.map Prod.fst).Nodup →
      mergeLoop f now (m.map fun p => { p.2 with lastSyncedAt := some now }) m =
        (m.map fun p => { p.2 with lastSyncedAt := some now }, []) := by
  intro m
  induction m with
  | nil =>
    intro _ _ _
    rfl
  | cons q rest ih =>
    obtain ⟨k, v⟩ := q
    intro hids hup hnd
    have hvk : v.id = k := hids (k, v) (List.mem_cons_self _ _)
    have hvup : v.updatedAt ≤ now := hup (k, v) (List.mem_cons_self _ _)
    rw [List.map_cons] at hnd
    have hnd2 := (List.nodup_cons.mp hnd).2
    have hknotin : (k, v).1 ∉ rest.map Prod.fst := (List.nodup_cons.mp hnd).1
    have hget : JSMap.get ((k, v) :: rest)
        ({ v with lastSyncedAt := some now } : Item α).id = some v := by
      unfold JSMap.get
      have hpk : (((k, v).1 == ({ v with lastSyncedAt := some now } : Item α).id)) = true := by
        simp [hvk]
      rw [List.find?_cons_of_pos rest hpk]
      rfl
    have hdel : JSMap.del ((k, v) :: rest)
        ({ v with lastSyncedAt := some now } : Item α).id = rest := by
      unfold JSMap.del
      have hs : ({ v with lastSyncedAt := some now } : Item α).id = k := hvk
      rw [hs]
      rw [List.filter_cons_of_neg (by simp)]
      apply List.filter_eq_self.mpr
      intro p hp
      simp only [bne_iff_ne, ne_eq, decide_eq_true_eq]
      intro hpk
      apply hknotin
      rw [← hpk]
      exact List.mem_map.mpr ⟨p, hp, rfl⟩
    have hids2 : ∀ p ∈ rest, (p.2 : Item α).id = p.1 :=
      fun p hp => hids p (List.mem_cons_of_mem _ hp)
    have hup2 : ∀ p ∈ rest, (p.2 : Item α).updatedAt ≤ now :=
      fun p hp => hup p (List.mem_cons_of_mem _ hp)
    have hrec := ih hids2 hup2 hnd2
    have hstamp : mergeBothPresent f now
        ({ v with lastSyncedAt := some now } : Item α) v =
        { v with lastSyncedAt := some now } :=
      mergeBothPresent_stamped f now _ v rfl hvup
    simp only [List.map_cons, mergeLoop, hget, hdel, hstamp, hrec]

/-- The merge loop processes an appended list by threading the map state. -/
theorem mergeLoop_append {α : Type} (f : Item α → Item α → Item α) (now : Nat) :
    ∀ (xs ys : List (Item α)) (m : JSMap (Item α)),
      mergeLoop f now (xs ++ ys) m =
        ((mergeLoop f now xs m).1 ++ (mergeLoop f now ys (mergeLoop f now xs m).2).1,
          (mergeLoop f now ys (mergeLoop f now xs m).2).2) := by
  intro xs
  induction xs with
  | nil =>
    intro ys m
    rfl
  | cons x rest ih =>
    intro ys m
    cases hget : JSMap.get m x.id with
    | none => simp only [List.cons_append, mergeLoop, hget, List.append_eq, ih]
    | some r => simp only [List.cons_append, mergeLoop, hget, List.append_eq, ih]

/-- Any entry of `JSMap.set m k v` is the new entry or one of the old ones. -/
theorem JSMap.mem_set {α : Type} {m : JSMap α} {k : String} {v : α} {p : String × α}
    (h : p ∈ JSMap.set m k v) : p = (k, v) ∨ p ∈ m := by
  unfold JSMap.set at h
  split at h
  · obtain ⟨q, hq, he⟩ := List.mem_map.mp h
    by_cases hqk : (q.1 == k) = true
    · left
      rw [← he]
      simp [hqk]
    · right
      rw [← he]
      simp only [hqk, if_false]
      exact hq
  · rcases List.mem_append.mp h with h1 | h1
    · right
      exact h1
    · left
      simpa using h1

/-- `JSMap.set` preserves distinctness of keys. -/
theorem JSMap.keys_set_nodup {α : Type} {m : JSMap α} (k : String) (v : α)
    (h : (m.map Prod.fst).Nodup) :
    ((JSMap.set m k v).map Prod.fst).Nodup := by
  unfold JSMap.set
  split
  · have heq : (m.map fun p => if p.1 == k then (k, v) else p).map Prod.fst =
        m.map Prod.fst := by
      rw [List.map_map]
      apply List.map_congr_left
      intro p _
      simp only [Function.comp_apply]
      by_cases hqk : p.1 = k <;> simp [hqk]
    rw [heq]
    exact h
  · rename_i hany
    rw [List.map_append]
    rw [List.nodup_append]
    refine ⟨h, by simp, ?_⟩
    intro a ha hb
    have ha2 : a = k := by simpa using hb
    obtain ⟨q, hq, hqe⟩ := List.mem_map.mp ha
    have hq2 : (List.any m fun p => p.1 == k) = true :=
      List.any_eq_true.mpr ⟨q, hq, by simp [hqe, ha2]⟩
    exact hany hq2

/-- The remote lookup map built by `mergeData` satisfies: each entry's value
carries the entry's key as id, keys are distinct, and (given bounded inputs)
all values are at or before the clock. -/
theorem buildMap_invar {α : Type} (now : Nat) :
    ∀ (R : List (Item α)) (acc : JSMap (Item α)),
      (∀ p ∈ acc, (p.2 : Item α).id = p.1) →
      (acc.map Prod.fst).Nodup →
      (∀ p ∈ acc, (p.2 : Item α).updatedAt ≤ now) →
      (∀ r ∈ R, (r : Item α).updatedAt ≤ now) →
      (∀ p ∈ R.foldl (fun m item => JSMap.set m item.id item) acc,
        (p.2 : Item α).id = p.1) ∧
      ((R.foldl (fun m item => JSMap.set m item.id item) acc).map Prod.fst).Nodup ∧
      (∀ p ∈ R.foldl (fun m item => JSMap.set m item.id item) acc,
        (p.2 : Item α).updatedAt ≤ now) := by
  intro R
  induction R with
  | nil =>
    intro acc h1 h2 h3 _
    exact ⟨h1, h2, h3⟩
  | cons r rest ih =>
    intro acc h1 h2 h3 h4
    apply ih
    · intro p hp
      rcases JSMap.mem_set hp with h | h
      · rw [h]
      · exact h1 p h
    · exact JSMap.keys_set_nodup r.id r h2
    · intro p hp
      rcases JSMap.mem_set hp with h | h
      · rw [h]
        exact h4 r (List.mem_cons_self _ _)
      · exact h3 p h
    · intro x hx
      exact h4 x (List.mem_cons_of_mem _ hx)

/-- Idempotence of the merge planner against a fixed remote snapshot, for any
resolver that stamps the winner's `lastSyncedAt` with the merge clock. -/
theorem mergeData_idem {α : Type} {f : Item α → Item α → Item α} {now : Nat}
    (hf : ∀ a b : Item α, f a b = { a with lastSyncedAt := some now } ∨
      f a b = { b with lastSyncedAt := some now })
    (L R : List (Item α)) (hR : ∀ r ∈ R, r.updatedAt ≤ now) :
    mergeData (mergeData L R f now) R f now = mergeData L R f now := by
  obtain ⟨hids, hnd, hup⟩ := buildMap_invar now R []
    (by simp) (by simp) (by simp) hR
  set R0 : JSMap (Item α) := R.foldl (fun m item => JSMap.set m item.id item) []
    with hR0def
  have hsub : List.Sublist (mergeLoop f now L R0).2 R0 :=
    mergeLoop_snd_sublist f now L R0
  have hids1 : ∀ p ∈ (mergeLoop f now L R0).2, (p.2 : Item α).id = p.1 :=
    fun p hp => hids p (hsub.subset hp)
  have hup1 : ∀ p ∈ (mergeLoop f now L R0).2, (p.2 : Item α).updatedAt ≤ now :=
    fun p hp => hup p (hsub.subset hp)
  have hnd1 : ((mergeLoop f now L R0).2.map Prod.fst).Nodup :=
    List.Nodup.sublist (List.Sublist.map Prod.fst hsub) hnd
  have hself := mergeLoop_self hf L R0 hids hup
  have hstamped := mergeLoop_stamped f now (mergeLoop f now L R0).2 hids1 hup1 hnd1
  simp only [mergeData]
  rw [mergeLoop_append f now _ _ R0]
  rw [hself]
  rw [hstamped]
  simp

/-- C8: merging is idempotent against a fixed remote snapshot - for any local
and remote collections whose record timestamps are at or before the merge
clock, re-merging the merge output against the same remote input returns it
unchanged, for both entity kinds that use `mergeData`. -/
theorem c8_merge_idempotent :
    (∀ (now : Nat) (L R : List Expense),
      (∀ l ∈ L, l.updatedAt ≤ now ∧ l.lastSyncedAt.getD 0 ≤ now) →
      (∀ r ∈ R, r.updatedAt ≤ now ∧ r.lastSyncedAt.getD 0 ≤ now) →
      mergeData (mergeData L R (resolveExpenseConflict now) now) R
          (resolveExpenseConflict now) now =
        mergeData L R (resolveExpenseConflict now) now) ∧
    (∀ (now : Nat) (L R : List Category),
      (∀ l ∈ L, l.updatedAt ≤ now ∧ l.lastSyncedAt.getD 0 ≤ now) →
      (∀ r ∈ R, r.updatedAt ≤ now ∧ r.lastSyncedAt.getD 0 ≤ now) →
      mergeData (mergeData L R (resolveCategoryConflict now) now) R
          (resolveCategoryConflict now) now =
        mergeData L R (resolveCategoryConflict now) now) := by
  constructor
  · intro now L R _ hR
    exact mergeData_idem (resolveExpenseConflict_stamp now) L R fun r hr => (hR r hr).1
  · intro now L R _ hR
    exact mergeData_idem (resolveCategoryConflict_stamp now) L R fun r hr => (hR r hr).1

/-- Witness for C8: idempotence at a concrete local/remote pair. -/
theorem c8_merge_idempotent_witness :
    mergeData (mergeData [lLoc] [rRem] (resolveExpenseConflict 200) 200) [rRem]
        (resolveExpenseConflict 200) 200 =
      mergeData [lLoc] [rRem] (resolveExpenseConflict 200) 200 ∧
    mergeData (mergeData [] [] (resolveCategoryConflict 5) 5) []
        (resolveCategoryConflict 5) 5 =
      mergeData [] [] (resolveCategoryConflict 5) 5 :=
  ⟨c8_merge_idempotent.1 200 [lLoc] [rRem]
      (fun l hl => by
        rw [List.mem_singleton] at hl
        subst hl
        exact ⟨by decide, by decide⟩)
      (fun r hr => by
        rw [List.mem_singleton] at hr
        subst hr
        exact ⟨by decide, by decide⟩),
   c8_merge_idempotent.2 5 [] [] (by simp) (by simp)⟩

/-- The merged prefix produced by the loop carries exactly the local ids, in
order (each matched-pair outcome keeps the local id). -/
theorem mergeLoop_fst_ids {α : Type} {f : Item α → Item α → Item α} {now : Nat}
    (hf : ∀ a b : Item α, f a b = { a with lastSyncedAt := some now } ∨
      f a b = { b with lastSyncedAt := some now }) :
    ∀ (locals : List (Item α)) (m : JSMap (Item α)),
      (∀ p ∈ m, (p.2 : Item α).id = p.1) →
      (mergeLoop f now locals m).1.map Item.id = locals.map Item.id := by
  intro locals
  induction locals with
  | nil =>
    intro m _
    rfl
  | cons l rest ih =>
    intro m hids
    cases hget : JSMap.get m l.id with
    | none =>
      simp only [mergeLoop, hget, List.map_cons]
      rw [ih m hids]
    | some r =>
      have hmem : (l.id, r) ∈ m := JSMap.get_mem hget
      have hrid : r.id = l.id := hids _ hmem
      have hids2 : ∀ p ∈ JSMap.del m l.id, (p.2 : Item α).id = p.1 :=
        fun p hp => hids p (List.mem_of_mem_filter hp)
      simp only [mergeLoop, hget, List.map_cons]
      rw [ih _ hids2, mergeBothPresent_id hf hrid]

/-- The leftover map after the loop is the input map restricted to keys that
do not occur among the local ids. -/
theorem mergeLoop_snd_filter {α : Type} (f : Item α → Item α → Item α) (now : Nat) :
    ∀ (locals : List (Item α)) (m : JSMap (Item α)),
      (mergeLoop f now locals m).2 =
        m.filter fun p => !((locals.map Item.id).contains p.1) := by
  intro locals
  induction locals with
  | nil =>
    intro m
    simp [mergeLoop]
  | cons l rest ih =>
    intro m
    cases hget : JSMap.get m l.id with
    | none =>
      have hnone : ∀ p ∈ m, (p.1 == l.id) = false := by
        intro p hp
        have hg := hget
        unfold JSMap.get at hg
        cases hf2 : m.find? (fun q => q.1 == l.id) with
        | none =>
          have := List.find?_eq_none.mp hf2 p hp
          simpa using this
        | some q =>
          rw [hf2] at hg
          cases hg
      simp only [mergeLoop, hget, ih]
      apply List.filter_congr
      intro p hp
      simp only [List.map_cons, List.contains_cons]
      rw [hnone p hp]
      simp
    | some r =>
      simp only [mergeLoop, hget, ih]
      unfold JSMap.del
      rw [List.filter_filter]
      apply List.filter_congr
      intro p _
      simp only [List.map_cons, List.contains_cons]
      by_cases hp1 : p.1 = l.id <;>
        cases h2 : (rest.map Item.id).contains p.1 <;> simp [hp1, h2, bne]

/-- Keys of a key-filtered map are the filtered keys. -/
theorem keys_filter {α : Type} (m : JSMap α) (q : String → Bool) :
    (m.filter fun p => q p.1).map Prod.fst = (m.map Prod.fst).filter q := by
  induction m with
  | nil => rfl
  | cons p rest ih =>
    by_cases hq : q p.1 = true
    · simp [List.filter_cons, hq, ih]
    · simp [List.filter_cons, hq, ih]

/-- With pairwise-distinct remote ids, the remote lookup map is exactly the
key-value pairing of the remote list, in order. -/
theorem buildMap_pairs {α : Type} :
    ∀ (R : List (Item α)) (acc : JSMap (Item α)),
      (∀ r ∈ R, (r : Item α).id ∉ acc.map Prod.fst) →
      (R.map Item.id).Nodup →
      R.foldl (fun m item => JSMap.set m item.id item) acc =
        acc ++ R.map fun item => (item.id, item) := by
  intro R
  induction R with
  | nil =>
    intro acc _ _
    simp
  | cons r rest ih =>
    intro acc hfresh hnd
    have hr : r.id ∉ acc.map Prod.fst := hfresh r (List.mem_cons_self _ _)
    have hany : (acc.any fun p => p.1 == r.id) = false := by
      rw [List.any_eq_false]
      intro p hp hpk
      apply hr
      have : p.1 = r.id := by simpa using hpk
      rw [← this]
      exact List.mem_map.mpr ⟨p, hp, rfl⟩
    have hset : JSMap.set acc r.id r = acc ++ [(r.id, r)] := by
      unfold JSMap.set
      rw [if_neg (by simp [hany])]
    rw [List.map_cons] at hnd
    have hnotin := (List.nodup_cons.mp hnd).1
    have hnd2 := (List.nodup_cons.mp hnd).2
    have hfresh2 : ∀ x ∈ rest, (x : Item α).id ∉ (acc ++ [(r.id, r)]).map Prod.fst := by
      intro x hx
      rw [List.map_append, List.mem_append]
      rintro (h | h)
      · exact hfresh x (List.mem_cons_of_mem _ hx) h
      · have hxid : x.id = r.id := by simpa using h
        exact hnotin (hxid ▸ List.mem_map.mpr ⟨x, hx, rfl⟩)
    simp only [List.foldl_cons, hset]
    rw [ih (acc ++ [(r.id, r)]) hfresh2 hnd2]
    simp

/-- The id sequence of the merged output: the local ids in order, followed by
the remote ids not present locally, in remote order. -/
theorem mergeData_ids {α : Type} {f : Item α → Item α → Item α} {now : Nat}
    (hf : ∀ a b : Item α, f a b = { a with lastSyncedAt := some now } ∨
      f a b = { b with lastSyncedAt := some now })
    (L R : List (Item α)) (hR : (R.map Item.id).Nodup) :
    (mergeData L R f now).map Item.id =
      L.map Item.id ++
        (R.map Item.id).filter fun i => !((L.map Item.id).contains i) := by
  have hbm := buildMap_pairs R [] (by simp) hR
  have hids : ∀ p ∈ (R.map fun item => ((item : Item α).id, item)),
      (p.2 : Item α).id = p.1 := by
    intro p hp
    obtain ⟨r, _, hre⟩ := List.mem_map.mp hp
    rw [← hre]
  simp only [mergeData, hbm, List.nil_append]
  rw [List.map_append]
  rw [mergeLoop_fst_ids hf L _ hids]
  rw [mergeLoop_snd_filter f now L _]
  rw [List.map_map]
  have hmapeq :
      ((R.map fun item => ((item : Item α).id, item)).filter
          fun p => !((L.map Item.id).contains p.1)).map
        (Item.id ∘ fun p => ({ p.2 with lastSyncedAt := some now } : Item α)) =
      ((R.map fun item => ((item : Item α).id, item)).filter
          fun p => !((L.map Item.id).contains p.1)).map Prod.fst := by
    apply List.map_congr_left
    intro p hp
    have hpm := List.mem_of_mem_filter hp
    have := hids p hpm
    simpa using this
  rw [hmapeq]
  have hk := keys_filter (R.map fun item => ((item : Item α).id, item))
    (fun i => !((L.map Item.id).contains i))
  simp only [hk]
  rw [List.map_map]
  have hcomp : (Prod.fst ∘ fun item => ((item : Item α).id, item)) = Item.id := rfl
  rw [hcomp]

/-- The merged output has pairwise-distinct ids when both inputs do. -/
theorem mergeData_ids_nodup {α : Type} {f : Item α → Item α → Item α} {now : Nat}
    (hf : ∀ a b : Item α, f a b = { a with lastSyncedAt := some now } ∨
      f a b = { b with lastSyncedAt := some now })
    (L R : List (Item α)) (hL : (L.map Item.id).Nodup) (hR : (R.map Item.id).Nodup) :
    ((mergeData L R f now).map Item.id).Nodup := by
  rw [mergeData_ids hf L R hR]
  rw [List.nodup_append]
  refine ⟨hL, hR.filter _, ?_⟩
  intro a ha hb
  have := (List.mem_filter.mp hb).2
  have ha2 : a ∉ L.map Item.id := by simpa using this
  exact ha2 ha

/-- Count form: each id of either input occurs exactly once in the merged
output; any other id does not occur. -/
theorem mergeData_count {α : Type} {f : Item α → Item α → Item α} {now : Nat}
    (hf : ∀ a b : Item α, f a b = { a with lastSyncedAt := some now } ∨
      f a b = { b with lastSyncedAt := some now })
    (L R : List (Item α)) (hL : (L.map Item.id).Nodup) (hR : (R.map Item.id).Nodup)
    (i : String) :
    ((mergeData L R f now).map Item.id).count i =
      if i ∈ L.map Item.id ∨ i ∈ R.map Item.id then 1 else 0 := by
  rw [mergeData_ids hf L R hR]
  rw [List.count_append]
  by_cases hiA : i ∈ L.map Item.id
  · have h1 : (L.map Item.id).count i = 1 := List.count_eq_one_of_mem hL hiA
    have h2 : ((R.map Item.id).filter fun x => !((L.map Item.id).contains x)).count i = 0 := by
      rw [List.count_eq_zero]
      intro hiB
      have := (List.mem_filter.mp hiB).2
      have hnot : i ∉ L.map Item.id := by simpa using this
      exact hnot hiA
    rw [h1, h2]
    simp [hiA]
  · have h1 : (L.map Item.id).count i = 0 := List.count_eq_zero.mpr hiA
    by_cases hiR : i ∈ R.map Item.id
    · have hiB : i ∈ (R.map Item.id).filter fun x => !((L.map Item.id).contains x) :=
        List.mem_filter.mpr ⟨hiR, by simpa using hiA⟩
      have h2 := List.count_eq_one_of_mem (hR.filter _) hiB
      rw [h1, h2]
      simp [hiA, hiR]
    · have h2 : ((R.map Item.id).filter fun x => !((L.map Item.id).contains x)).count i = 0 := by
        rw [List.count_eq_zero]
        intro hiB
        exact hiR (List.mem_filter.mp hiB).1
      rw [h1, h2]
      simp [hiA, hiR]

/-- C9: with pairwise-distinct ids within each input collection, the merged
output of `mergeData` contains exactly one record per id of the union of the
two id sets and nothing else, for both entity kinds that use `mergeData`. -/
theorem c9_merge_union_of_ids :
    (∀ (now : Nat) (L R : List Expense),
      (L.map Item.id).Nodup → (R.map Item.id).Nodup →
      ∀ i : String,
        ((mergeData L R (resolveExpenseConflict now) now).map Item.id).count i =
          if i ∈ L.map Item.id ∨ i ∈ R.map Item.id then 1 else 0) ∧
    (∀ (now : Nat) (L R : List Category),
      (L.map Item.id).Nodup → (R.map Item.id).Nodup →
      ∀ i : String,
        ((mergeData L R (resolveCategoryConflict now) now).map Item.id).count i =
          if i ∈ L.map Item.id ∨ i ∈ R.map Item.id then 1 else 0) := by
  constructor
  · intro now L R hL hR i
    exact mergeData_count (resolveExpenseConflict_stamp now) L R hL hR i
  · intro now L R hL hR i
    exact mergeData_count (resolveCategoryConflict_stamp now) L R hL hR i

/-- Witness for C9: the shared id occurs once and a foreign id zero times in
a concrete merge. -/
theorem c9_merge_union_of_ids_witness :
    ((mergeData [lLoc] [rRem] (resolveExpenseConflict 200) 200).map Item.id).count "e1" = 1 ∧
    ((mergeData [lLoc] [rRem] (resolveExpenseConflict 200) 200).map Item.id).count "zz" = 0 := by
  constructor
  · have h := c9_merge_union_of_ids.1 200 [lLoc] [rRem] (by decide) (by decide) "e1"
    rw [h]
    simp [lLoc, rRem]
  · have h := c9_merge_union_of_ids.1 200 [lLoc] [rRem] (by decide) (by decide) "zz"
    rw [h]
    simp [lLoc, rRem]

/-- C5: every locally tombstoned expense in the pending-push set yields a
remote delete operation for its id (never an upsert for that id), and the
merged snapshot returned by the cycle still contains the tombstoned record. -/
theorem c5_tombstone_delete_not_upsert :
    ∀ (now : Nat) (L R : List Expense),
      (L.map Item.id).Nodup → (R.map Item.id).Nodup →
      ∀ e ∈ (mergeData L R (resolveExpenseConflict now) now).filter
          (fun exp => itemNeedsSync exp),
        e.isDeleted = some true →
        RemoteOp.delete e.id ∈
            expenseBatch now (mergeData L R (resolveExpenseConflict now) now) ∧
          (∀ d : Expense, RemoteOp.set e.id d ∉
            expenseBatch now (mergeData L R (resolveExpenseConflict now) now)) ∧
          e ∈ mergeData L R (resolveExpenseConflict now) now := by
  intro now L R hL hR e he hdel
  have hmerged : e ∈ mergeData L R (resolveExpenseConflict now) now :=
    List.mem_of_mem_filter he
  refine ⟨?_, ?_, hmerged⟩
  · unfold expenseBatch
    apply List.mem_map.mpr
    refine ⟨e, he, ?_⟩
    simp [hdel]
  · intro d hset
    unfold expenseBatch at hset
    obtain ⟨p, hp, hpe⟩ := List.mem_map.mp hset
    by_cases hpd : (p.isDeleted == some true) = true
    · rw [if_pos hpd] at hpe
      simp at hpe
    · rw [if_neg hpd] at hpe
      have hid : p.id = e.id := by
        have := hpe
        simp only [RemoteOp.set.injEq] at this
        exact this.1
      have hnd := mergeData_ids_nodup (resolveExpenseConflict_stamp now) L R hL hR
      have hpm : p ∈ mergeData L R (resolveExpenseConflict now) now :=
        List.mem_of_mem_filter hp
      have hpeq : p = e := List.inj_on_of_nodup_map hnd hpm hmerged hid
      rw [hpeq, hdel] at hpd
      simp at hpd

/-- Witness for C5: the tombstoned expense produces a delete op and stays in
the merged snapshot. -/
theorem c5_tombstone_delete_not_upsert_witness :
    RemoteOp.delete "e9" ∈
        expenseBatch 200 (mergeData [tomb] [] (resolveExpenseConflict 200) 200) ∧
      tomb ∈ mergeData [tomb] [] (resolveExpenseConflict 200) 200 := by
  have h := c5_tombstone_delete_not_upsert 200 [tomb] [] (by decide) (by decide)
    tomb (by decide) rfl
  exact ⟨h.1, h.2.2⟩
